import Mathlib

/-!
Verification of the code-block extraction and session-state logic of the
Streamlit Gemini code-assistant application (src/code.py).

Python strings are modelled as `List Char` (`PyStr`); the Python `dict`
`selected_code_ids_for_download` is modelled as an insertion-ordered
association list; clock readings (`datetime.datetime.now()`) are inputs of
the model; code that can raise a Python exception is modelled in `Except`.
-/

abbrev PyStr := List Char

/-- Whitespace as recognised by Python `str.strip` / `str.split` (ASCII range). -/
def pyIsSpace (c : Char) : Bool :=
  c == ' ' || c == '\t' || c == '\n' || c == '\r' || c == Char.ofNat 11 || c == Char.ofNat 12

/-- Python `s.strip()`: drop leading and trailing whitespace. -/
def pyStrip (s : PyStr) : PyStr :=
  ((s.dropWhile pyIsSpace).reverse.dropWhile pyIsSpace).reverse

/-- Python `s.lower()` (ASCII). -/
def pyLower (s : PyStr) : PyStr := s.map Char.toLower

/-- Python `s.partition('\n')` restricted to the two interesting components:
`(head, tail)` around the first newline; `(s, [])` when no newline occurs. -/
def pyPartitionNl : PyStr → PyStr × PyStr
  | [] => ([], [])
  | c :: r =>
    if c == '\n' then ([], r)
    else
      let p := pyPartitionNl r
      (c :: p.1, p.2)

/-- The backtick character of the markdown fence marker. -/
def bq : Char := Char.ofNat 96

/-- Does the string start with the three-backtick fence marker? -/
def startsWithFence : PyStr → Bool
  | a :: b :: c :: _ => a == bq && b == bq && c == bq
  | _ => false

/-- Python `"\x60\x60\x60" in s`: substring test for the fence marker. -/
def containsFence : PyStr → Bool
  | [] => false
  | c :: rest => startsWithFence (c :: rest) || containsFence rest

/-- Worker for `pySplitFence`: `skip` counts fence characters still to be
consumed after a match, `acc` is the current segment reversed. -/
def pySplitGo : PyStr → Nat → PyStr → List PyStr
  | [], _, acc => [acc.reverse]
  | _ :: rest, skip + 1, acc => pySplitGo rest skip acc
  | c :: rest, 0, acc =>
    if startsWithFence (c :: rest) then acc.reverse :: pySplitGo rest 2 []
    else pySplitGo rest 0 (c :: acc)

/-- Python `s.split("\x60\x60\x60")`: split on non-overlapping fence markers,
scanning left to right. -/
def pySplitFence (s : PyStr) : List PyStr := pySplitGo s 0 []

/-- The segments at odd positions (1st, 3rd, ...) of a fence-split: the fenced
regions, as iterated by `range(1, len(blocks), 2)` in the correct flow. -/
def oddBlocks : List PyStr → List PyStr
  | _ :: b :: rest => b :: oddBlocks rest
  | _ => []

/-- Python `s.isalpha()`: non-empty and purely alphabetic. -/
def pyIsAlphaStr (s : PyStr) : Bool := !s.isEmpty && s.all Char.isAlpha

/-- Python `s.startswith(('#', '//', '/*'))` from the generate flow. -/
def startsWithCommentMark (s : PyStr) : Bool :=
  List.isPrefixOf ['#'] s || List.isPrefixOf ['/', '/'] s || List.isPrefixOf ['/', '*'] s

/-- Lines 153-161 of the generate flow: strip a language hint off the first
line of a fenced block when that line (stripped) is alphabetic and does not
start with a comment mark; otherwise keep the whole block. -/
def genBlock (code_block_content : PyStr) : PyStr :=
  if code_block_content.contains '\n' then
    if pyIsAlphaStr (pyStrip (pyPartitionNl code_block_content).1)
        && !startsWithCommentMark (pyStrip (pyPartitionNl code_block_content).1) then
      (pyPartitionNl code_block_content).2
    else code_block_content
  else code_block_content

/-- Lines 150-164: the generate flow's extraction of the code to store from
the raw model response.  The indexing `split[1]` is modelled in `Option`:
`none` would be an `IndexError`. -/
def code_to_store (generated_content : PyStr) : Option PyStr :=
  if containsFence generated_content then
    match (pySplitFence generated_content).get? 1 with
    | some code_block_content => some (pyStrip (genBlock code_block_content))
    | none => none
  else some (pyStrip generated_content)

/-- The characters the correct flow forbids in a language hint (line 313);
note the code checks only the opening brace and opening parenthesis. -/
def hintBlacklist : PyStr := [' ', ':', ';', Char.ofNat 123, '(', '#']

/-- Line 313: `lang_hint and not any(char in lang_hint for char in [...])`. -/
def langHintOk (lang_hint : PyStr) : Bool :=
  !lang_hint.isEmpty && hintBlacklist.all (fun c => !lang_hint.contains c)

/-- Lines 308-319: one iteration body of the correct flow's extraction loop,
returning `(extracted_language, extracted_code_content)` after the block. -/
def processBlock (extracted_language block_content_with_lang : PyStr) : PyStr × PyStr :=
  if block_content_with_lang.contains '\n' then
    if langHintOk (pyLower (pyStrip (pyPartitionNl block_content_with_lang).1)) then
      (pyLower (pyStrip (pyPartitionNl block_content_with_lang).1),
       pyStrip (pyPartitionNl block_content_with_lang).2)
    else (extracted_language, pyStrip block_content_with_lang)
  else (extracted_language, pyStrip block_content_with_lang)

/-- The content a fenced block contributes, independent of the running
language state (specification-side projection of `processBlock`). -/
def blockContent (b : PyStr) : PyStr := (processBlock [] b).2

/-- Lines 307-322: the correct flow's loop over fenced regions, breaking at
the first block whose extracted content is non-empty; `none` when every
region extracts empty (then no snippet is created). -/
def correctLoop (extracted_language : PyStr) : List PyStr → Option (PyStr × PyStr)
  | [] => none
  | b :: rest =>
    if (processBlock extracted_language b).2.isEmpty then
      correctLoop (processBlock extracted_language b).1 rest
    else some (processBlock extracted_language b)

/-- Lines 300-322: the correct flow's whole extraction from a model response,
initial `extracted_language = "python"`, guarded by the fence test. -/
def extracted_code_content (ai_response_text : PyStr) : Option (PyStr × PyStr) :=
  if containsFence ai_response_text then
    correctLoop ("python".toList) (oddBlocks (pySplitFence ai_response_text))
  else none

/-- Worker for `pyWsSplit`. -/
def wsSplitGo : PyStr → PyStr → List PyStr
  | [], acc => if acc.isEmpty then [] else [acc.reverse]
  | c :: r, acc =>
    if pyIsSpace c then
      if acc.isEmpty then wsSplitGo r [] else acc.reverse :: wsSplitGo r []
    else wsSplitGo r (c :: acc)

/-- Python `s.split()` with no argument: split on whitespace runs, dropping
empty fields. -/
def pyWsSplit (s : PyStr) : List PyStr := wsSplitGo s []

/-- A single-quote character as a string (used by Python list display). -/
def quoteMark : String := String.singleton (Char.ofNat 39)

/-- Python `str` of a list of strings, as interpolated by an f-string:
single-quoted items, comma-space separated, in square brackets. -/
def pyListRepr (xs : List PyStr) : String :=
  "[" ++ String.intercalate ", " (xs.map (fun w => quoteMark ++ String.mk w ++ quoteMark)) ++ "]"

/-- Line 326: the corrected snippet's filename
`f"corrected_{now:%H%M%S}.{extracted_language.split() if extracted_language else 'txt'}"`;
`tstr` is the formatted clock reading. -/
def correctedFilename (tstr : String) (extracted_language : PyStr) : String :=
  "corrected_" ++ tstr ++ "." ++
    (if extracted_language.isEmpty then "txt" else pyListRepr (pyWsSplit extracted_language))

structure CodeSnippet where
  id : String
  filename : String
  language : String
  content : String
  description : Option String
deriving DecidableEq

structure ChatMessage where
  role : String
  parts : List String
deriving DecidableEq

structure AppState where
  api_key_configured : Bool
  chat_history : List ChatMessage
  generated_codes : List CodeSnippet
  current_explanation : Option String
  selected_code_ids_for_download : List (String × Bool)
deriving DecidableEq

/-- Python `d[k] = v` on an insertion-ordered dict: update in place when the
key exists, else append the new binding at the end. -/
def dictSet (d : List (String × Bool)) (k : String) (v : Bool) : List (String × Bool) :=
  if d.any (fun p => p.1 == k) then d.map (fun p => if p.1 == k then (k, v) else p)
  else d ++ [(k, v)]

/-- Python `d.get(k, dflt)`. -/
def dictGet (d : List (String × Bool)) (k : String) (dflt : Bool) : Bool :=
  match d.find? (fun p => p.1 == k) with
  | some p => p.2
  | none => dflt

/-- Line 11: `id = f"code_{datetime.datetime.now().timestamp()}"`; the clock
reading is an input of the model, already formatted as a string. -/
def mkId (tstamp : String) : String := "code_" ++ tstamp

/-- Session operations: snippet creation (generate or correct flow, carrying
the clock reading used for the id) and a selection-checkbox toggle. -/
inductive Op where
  | create (filename language content tstamp : String)
  | toggle (id : String) (b : Bool)
deriving DecidableEq

/-- Effect of one operation on the session state: creation appends the
snippet and auto-selects it (lines 172-174 and 331-332); a toggle writes the
checkbox value into the selection dict (lines 204-218). -/
def applyOp (st : AppState) : Op → AppState
  | Op.create fn lg ct t =>
    let snippet : CodeSnippet :=
      { id := mkId t, filename := fn, language := lg, content := ct, description := none }
    { st with
      generated_codes := st.generated_codes ++ [snippet]
      selected_code_ids_for_download :=
        dictSet st.selected_code_ids_for_download snippet.id true }
  | Op.toggle i b =>
    { st with selected_code_ids_for_download :=
        dictSet st.selected_code_ids_for_download i b }

def runTrace (st : AppState) : List Op → AppState
  | [] => st
  | op :: rest => runTrace (applyOp st op) rest

def initState : AppState :=
  { api_key_configured := false
    chat_history := []
    generated_codes := []
    current_explanation := none
    selected_code_ids_for_download := [] }

/-- The clock readings of the creation operations of a trace, in order. -/
def createStamps : List Op → List String
  | [] => []
  | Op.create _ _ _ t :: rest => t :: createStamps rest
  | Op.toggle _ _ :: rest => createStamps rest

/-- Line 269: `[s for s_id, is_sel in ...items() if is_sel]`.  The name `s`
is unbound at module scope, so the comprehension raises `NameError` as soon
as one item passes the `is_sel` filter; with no selected item it yields `[]`. -/
def selected_for_chat_correction (d : List (String × Bool)) :
    Except String (List String) :=
  if d.any (fun p => p.2) then Except.error "NameError: name s is not defined"
  else Except.ok []

/-- Lines 268-273: the correct-mode subject-snippet computation. -/
def latest_code_to_discuss (st : AppState) : Except String (Option CodeSnippet) :=
  match selected_for_chat_correction st.selected_code_ids_for_download with
  | Except.error e => Except.error e
  | Except.ok sel =>
    match sel.getLast? with
    | some lastId => Except.ok (st.generated_codes.find? (fun s => s.id == lastId))
    | none => Except.ok st.generated_codes.getLast?

/-- Lines 264-284: the context snippet handed to the gateway in correct mode;
the outer guard skips the computation entirely when no snippet exists. -/
def subjectSnippet (st : AppState) : Except String (Option CodeSnippet) :=
  if st.generated_codes.isEmpty then Except.ok none else latest_code_to_discuss st

def userMessage (u : String) : ChatMessage := { role := "user", parts := [u] }

/-- Line 338: the message logged when the gateway call fails. -/
def fallbackMessage : ChatMessage :=
  { role := "model", parts := ["Sorry, I encountered an issue."] }

/-- Lines 294-340: handling of the gateway's answer in a correct-mode chat
turn.  `resp` is the gateway result (`none` = failure), `tstr` the formatted
clock reading of line 326 and `tid` the one of the snippet id. -/
def processAiResponse (st : AppState) (resp : Option String) (tstr tid : String) : AppState :=
  match resp with
  | none => { st with chat_history := st.chat_history ++ [fallbackMessage] }
  | some text =>
    let st2 := { st with chat_history := st.chat_history ++ [{ role := "model", parts := [text] }] }
    match extracted_code_content text.toList with
    | some (lang, content) =>
      let corrected_snippet : CodeSnippet :=
        { id := mkId tid
          filename := correctedFilename tstr lang
          language := if lang.isEmpty then "unknown" else String.mk lang
          content := String.mk content
          description := some "Corrected/refined via chat" }
      { st2 with
        generated_codes := st2.generated_codes ++ [corrected_snippet]
        selected_code_ids_for_download :=
          dictSet st2.selected_code_ids_for_download corrected_snippet.id true }
    | none => st2

/-- Lines 255-340: a whole chat turn, user message appended first (line 257). -/
def chatTurn (st : AppState) (u : String) (resp : Option String) (tstr tid : String) : AppState :=
  processAiResponse { st with chat_history := st.chat_history ++ [userMessage u] } resp tstr tid

/-- Lines 104-111: the archive, modelled by its ordered entry list
(entry name, entry bytes); `writestr` appends one entry per snippet. -/
def create_zip_file (code_snippets : List CodeSnippet) : List (String × String) :=
  code_snippets.map (fun snippet => (snippet.filename, snippet.content))

/-- Lines 221-224: the snippets offered for download. -/
def selected_to_download (st : AppState) : List CodeSnippet :=
  st.generated_codes.filter
    (fun s => dictGet st.selected_code_ids_for_download s.id false)

/-- The language-hint criterion in the words of claim C3: a non-empty purely
alphabetic token containing none of the blacklisted characters (written from
the specification, for comparison with the code's criteria). -/
def specIsLangHint (s : PyStr) : Bool :=
  pyIsAlphaStr s && hintBlacklist.all (fun c => !s.contains c)

/-! ### Helper lemmas -/

theorem pySplitGo_ne_nil : ∀ (s : PyStr) (skip : Nat) (acc : PyStr), pySplitGo s skip acc ≠ []
  | [], _, acc => by simp [pySplitGo]
  | _ :: rest, skip + 1, acc => pySplitGo_ne_nil rest skip acc
  | c :: rest, 0, acc => by
    rw [pySplitGo]
    split
    · simp
    · exact pySplitGo_ne_nil rest 0 (c :: acc)

theorem two_le_pySplitGo_length :
    ∀ (s : PyStr) (acc : PyStr), containsFence s = true → 2 ≤ (pySplitGo s 0 acc).length
  | [], acc, h => by simp [containsFence] at h
  | c :: rest, acc, h => by
    by_cases hf : startsWithFence (c :: rest) = true
    · rw [pySplitGo, if_pos hf]
      have hne := pySplitGo_ne_nil rest 2 []
      have hpos : 0 < (pySplitGo rest 2 []).length := List.length_pos.mpr hne
      simp only [List.length_cons]
      omega
    · have h2 : containsFence rest = true := by
        rw [containsFence, Bool.or_eq_true] at h
        rcases h with h | h
        · exact absurd h hf
        · exact h
      rw [pySplitGo, if_neg hf]
      exact two_le_pySplitGo_length rest (c :: acc) h2

theorem code_to_store_isSome (text : PyStr) : (code_to_store text).isSome = true := by
  unfold code_to_store
  by_cases h : containsFence text = true
  · rw [if_pos h]
    cases hg : (pySplitFence text).get? 1 with
    | some b => simp
    | none =>
      have hlen : (pySplitFence text).length ≤ 1 := List.get?_eq_none.mp hg
      have h2 : 2 ≤ (pySplitFence text).length := two_le_pySplitGo_length text [] h
      omega
  · rw [if_neg h]
    simp

theorem dropWhile_head_false {α : Type} {p : α → Bool} :
    ∀ (l : List α) {c : α} {t : List α}, l.dropWhile p = c :: t → p c = false
  | [], c, t, h => by simp [List.dropWhile] at h
  | a :: r, c, t, h => by
    rw [List.dropWhile_cons] at h
    by_cases ha : p a = true
    · rw [if_pos ha] at h
      exact dropWhile_head_false r h
    · rw [if_neg ha] at h
      cases h
      exact Bool.not_eq_true _ ▸ Bool.of_not_eq_true ha

theorem dropWhile_dropWhile {α : Type} (p : α → Bool) (l : List α) :
    (l.dropWhile p).dropWhile p = l.dropWhile p := by
  cases h : l.dropWhile p with
  | nil => simp
  | cons c t =>
    have hc := dropWhile_head_false l h
    rw [List.dropWhile_cons, if_neg (by simp [hc])]

theorem exists_append_dropWhile {α : Type} (p : α → Bool) :
    ∀ (l : List α), ∃ w, l = w ++ l.dropWhile p
  | [] => ⟨[], rfl⟩
  | a :: r => by
    by_cases ha : p a = true
    · obtain ⟨w, hw⟩ := exists_append_dropWhile p r
      refine ⟨a :: w, ?_⟩
      rw [List.dropWhile_cons, if_pos ha, List.cons_append]
      exact congrArg (a :: ·) hw
    · exact ⟨[], by rw [List.dropWhile_cons, if_neg ha, List.nil_append]⟩

theorem dropWhile_rev_dropWhile {α : Type} (p : α → Bool) (m : List α)
    (hm : m.dropWhile p = m) :
    ((m.reverse.dropWhile p).reverse).dropWhile p = (m.reverse.dropWhile p).reverse := by
  cases hsb : (m.reverse.dropWhile p).reverse with
  | nil => simp
  | cons c t =>
    obtain ⟨w, hw⟩ := exists_append_dropWhile p m.reverse
    have hm2 : m = (m.reverse.dropWhile p).reverse ++ w.reverse := by
      have h3 := congrArg List.reverse hw
      simpa [List.reverse_append] using h3
    rw [hsb] at hm2
    have hpc : p c = false := by
      have h4 : m.dropWhile p = c :: (t ++ w.reverse) := by
        rw [hm, hm2, List.cons_append]
      exact dropWhile_head_false m h4
    rw [List.dropWhile_cons, if_neg (by simp [hpc])]

theorem pyStrip_idem (s : PyStr) : pyStrip (pyStrip s) = pyStrip s := by
  unfold pyStrip
  rw [dropWhile_rev_dropWhile pyIsSpace (s.dropWhile pyIsSpace)
        (dropWhile_dropWhile pyIsSpace s),
      List.reverse_reverse, dropWhile_dropWhile]

theorem processBlock_snd_strip (lang b : PyStr) :
    pyStrip (processBlock lang b).2 = (processBlock lang b).2 := by
  unfold processBlock
  by_cases h1 : b.contains '\n' = true
  · rw [if_pos h1]
    by_cases h2 : langHintOk (pyLower (pyStrip (pyPartitionNl b).1)) = true
    · rw [if_pos h2]
      exact pyStrip_idem _
    · rw [if_neg h2]
      exact pyStrip_idem _
  · rw [if_neg h1]
    exact pyStrip_idem _

theorem processBlock_snd_indep (l₁ l₂ b : PyStr) :
    (processBlock l₁ b).2 = (processBlock l₂ b).2 := by
  unfold processBlock
  by_cases h1 : b.contains '\n' = true
  · rw [if_pos h1, if_pos h1]
    by_cases h2 : langHintOk (pyLower (pyStrip (pyPartitionNl b).1)) = true
    · rw [if_pos h2, if_pos h2]
    · rw [if_neg h2, if_neg h2]
  · rw [if_neg h1, if_neg h1]

theorem processBlock_fst_ne_nil (lang b : PyStr) (h : lang ≠ []) :
    (processBlock lang b).1 ≠ [] := by
  unfold processBlock
  by_cases h1 : b.contains '\n' = true
  · rw [if_pos h1]
    by_cases h2 : langHintOk (pyLower (pyStrip (pyPartitionNl b).1)) = true
    · rw [if_pos h2]
      intro hn
      have hn2 : pyLower (pyStrip (pyPartitionNl b).1) = [] := hn
      rw [hn2] at h2
      simp [langHintOk] at h2
    · rw [if_neg h2]
      exact h
  · rw [if_neg h1]
    exact h

theorem correctLoop_map_snd :
    ∀ (blocks : List PyStr) (lang : PyStr),
      (correctLoop lang blocks).map (fun p => p.2)
        = (blocks.map blockContent).find? (fun c => !c.isEmpty)
  | [], _ => by simp [correctLoop]
  | b :: rest, lang => by
    have hbc : (processBlock lang b).2 = blockContent b := processBlock_snd_indep lang [] b
    by_cases he : (processBlock lang b).2.isEmpty = true
    · have hbe : (blockContent b).isEmpty = true := hbc ▸ he
      rw [correctLoop, if_pos he, List.map_cons,
          List.find?_cons_of_neg _ (by simp [hbe])]
      exact correctLoop_map_snd rest (processBlock lang b).1
    · have hbe : (!(blockContent b).isEmpty) = true := by
        rw [← hbc]
        simpa using he
      rw [correctLoop, if_neg he, List.map_cons,
          show List.find? (fun c => !c.isEmpty)
                (blockContent b :: List.map blockContent rest)
              = some (blockContent b) from List.find?_cons_of_pos _ hbe]
      simp [hbc]

theorem correctLoop_some_lang_ne_nil :
    ∀ (blocks : List PyStr) (lang l c : PyStr),
      lang ≠ [] → correctLoop lang blocks = some (l, c) → l ≠ []
  | [], lang, l, c, _, h => by simp [correctLoop] at h
  | b :: rest, lang, l, c, hl, h => by
    by_cases he : (processBlock lang b).2.isEmpty = true
    · rw [correctLoop, if_pos he] at h
      exact correctLoop_some_lang_ne_nil rest (processBlock lang b).1 l c
        (processBlock_fst_ne_nil lang b hl) h
    · rw [correctLoop, if_neg he] at h
      have h5 : processBlock lang b = (l, c) := by
        exact Option.some.inj h
      have h6 := processBlock_fst_ne_nil lang b hl
      rw [h5] at h6
      exact h6

theorem find?_update (d : List (String × Bool)) (k : String) (v : Bool) :
    (d.map (fun p => if p.1 == k then (k, v) else p)).find? (fun p => p.1 == k)
      = if d.any (fun p => p.1 == k) then some (k, v) else none := by
  induction d with
  | nil => simp
  | cons a t ih =>
    by_cases ha : (a.1 == k) = true
    · have hk : a.1 = k := eq_of_beq ha
      simp only [List.map_cons, List.any_cons, ha, if_pos, Bool.true_or, if_true]
      rw [List.find?_cons_of_pos _ (by simp)]
    · simp only [List.map_cons, List.any_cons, ha, if_neg, Bool.false_or]
      rw [List.find?_cons_of_neg _ (by simpa using ha)]
      exact ih

theorem dictGet_dictSet_self (d : List (String × Bool)) (k : String) (v dflt : Bool) :
    dictGet (dictSet d k v) k dflt = v := by
  unfold dictSet dictGet
  by_cases h : d.any (fun p => p.1 == k) = true
  · rw [if_pos h, find?_update, if_pos h]
  · rw [if_neg h, List.find?_append]
    have hn : d.find? (fun p => p.1 == k) = none := by
      rw [List.find?_eq_none]
      intro p hp hpk
      exact h (List.any_eq_true.mpr ⟨p, hp, hpk⟩)
    rw [hn]
    simp

theorem runTrace_ids :
    ∀ (ops : List Op) (st : AppState),
      (runTrace st ops).generated_codes.map (fun s => s.id)
        = st.generated_codes.map (fun s => s.id) ++ (createStamps ops).map mkId
  | [], st => by simp [runTrace, createStamps]
  | Op.create fn lg ct t :: rest, st => by
    rw [runTrace, runTrace_ids rest (applyOp st (Op.create fn lg ct t))]
    simp [applyOp, createStamps]
  | Op.toggle i b :: rest, st => by
    rw [runTrace, runTrace_ids rest (applyOp st (Op.toggle i b))]
    simp [applyOp, createStamps]

theorem mkId_injective : Function.Injective mkId := by
  intro a b h
  have h2 : ("code_" ++ a).data = ("code_" ++ b).data := congrArg String.data h
  rw [String.data_append, String.data_append] at h2
  exact String.ext (List.append_cancel_left h2)

theorem all_alpha_not_contains (s : PyStr) (c : Char)
    (hall : s.all Char.isAlpha = true) (hc : Char.isAlpha c = false) :
    s.contains c = false := by
  induction s with
  | nil => rfl
  | cons a t ih =>
    rw [List.all_cons, Bool.and_eq_true] at hall
    have ht := ih hall.2
    by_cases hca : (c == a) = true
    · have hceq : c = a := eq_of_beq hca
      rw [hceq, hall.1] at hc
      simp at hc
    · rw [List.contains_cons, ht]
      simpa using hca

theorem alpha_head_ne (a c : Char) (ha : Char.isAlpha a = true)
    (hc : Char.isAlpha c = false) : (c == a) = false := by
  by_cases hq : (c == a) = true
  · have heq : c = a := eq_of_beq hq
    rw [heq, ha] at hc
    simp at hc
  · simpa using hq

/-! ### Claim theorems -/

/-- Claim C1 (code bug): the three-tier context preference of correct mode
does not hold on the code.  Whenever at least one snippet is currently
selected for download, line 269 evaluates the unbound name `s` inside the
list comprehension and the turn dies with `NameError` — tier (a) can never
deliver a snippet.  With every flag false the code does fall back to the
most recently appended snippet, and with no snippet there is no context. -/
theorem correct_mode_context_selection_raises :
    subjectSnippet (runTrace initState [Op.create "a.py" "python" "x" "1"])
        = Except.error "NameError: name s is not defined"
    ∧ subjectSnippet (runTrace initState
          [Op.create "a.py" "python" "x" "1", Op.toggle "code_1" false])
        = Except.ok (some ⟨"code_1", "a.py", "python", "x", none⟩)
    ∧ subjectSnippet initState = Except.ok none :=
  ⟨rfl, rfl, rfl⟩

/-- Claim C2: for a response with at least one fenced region, the generate
flow stores the trimmed, hint-stripped content of the first region found,
and the correct flow returns the trimmed, hint-stripped content of the first
region whose extracted content is non-empty, falling through the regions
whose extraction is empty; every returned content is already trimmed. -/
theorem parser_first_region_selection (text : PyStr) (h : containsFence text = true) :
    code_to_store text
        = some (pyStrip (genBlock ((oddBlocks (pySplitFence text)).headD [])))
    ∧ (extracted_code_content text).map (fun p => p.2)
        = ((oddBlocks (pySplitFence text)).map blockContent).find? (fun c => !c.isEmpty)
    ∧ ∀ lang content, extracted_code_content text = some (lang, content) →
        pyStrip content = content := by
  have h2 : 2 ≤ (pySplitFence text).length := two_le_pySplitGo_length text [] h
  refine ⟨?_, ?_, ?_⟩
  · unfold code_to_store
    rw [if_pos h]
    rcases hsp : pySplitFence text with _ | ⟨a, _ | ⟨b, t⟩⟩
    · rw [hsp] at h2
      simp at h2
    · rw [hsp] at h2
      simp at h2
    · simp [oddBlocks]
  · unfold extracted_code_content
    rw [if_pos h]
    exact correctLoop_map_snd _ _
  · intro lang content hec
    unfold extracted_code_content at hec
    rw [if_pos h] at hec
    have hmap := correctLoop_map_snd (oddBlocks (pySplitFence text)) ("python".toList)
    rw [hec] at hmap
    have hmem := List.mem_of_find?_eq_some hmap.symm
    obtain ⟨b', _, hbc⟩ := List.mem_map.mp hmem
    have hbc2 : blockContent b' = content := hbc
    rw [← hbc2]
    exact processBlock_snd_strip [] b'

/-- Claim C2 witness: the scenario from the specification, exercising both
flows of `parser_first_region_selection`. -/
theorem parser_first_region_selection_witness :
    code_to_store ("Here:\n```python\nprint(1)\n```\nDone".toList)
        = some ("print(1)".toList)
    ∧ (extracted_code_content ("Here:\n```python\nprint(1)\n```\nDone".toList)).map
          (fun p => p.2)
        = some ("print(1)".toList) := by
  have h := parser_first_region_selection
    ("Here:\n```python\nprint(1)\n```\nDone".toList) (by decide)
  exact ⟨h.1.trans (by decide), h.2.1.trans (by decide)⟩

/-- Claim C3 counterexample: the correct flow treats the first line `x=1` of
a fenced block as a language hint and strips it, although `x=1` is not an
alphabetic token — the claimed criterion rejects it. -/
theorem lang_hint_not_alpha_counterexample :
    processBlock ("python".toList) ("x=1\nprint(2)".toList)
        = ("x=1".toList, "print(2)".toList)
    ∧ specIsLangHint ("x=1".toList) = false :=
  ⟨by decide, by decide⟩

/-- Claim C3 (amended): the generate flow strips the first line iff, after
stripping, it is a non-empty purely alphabetic token (its comment-mark test
is subsumed by alphabeticity); the correct flow strips it iff, after
stripping and lowercasing, it is non-empty and contains none of space,
colon, semicolon, opening brace, opening parenthesis, or hash — with no
alphabeticity or length requirement.  Alphabetic tokens always qualify. -/
theorem lang_hint_criteria :
    (∀ lang b : PyStr, b.contains '\n' = true →
        processBlock lang b
          = (if langHintOk (pyLower (pyStrip (pyPartitionNl b).1))
             then (pyLower (pyStrip (pyPartitionNl b).1), pyStrip (pyPartitionNl b).2)
             else (lang, pyStrip b)))
    ∧ (∀ b : PyStr, b.contains '\n' = true →
        genBlock b
          = (if pyIsAlphaStr (pyStrip (pyPartitionNl b).1)
                && !startsWithCommentMark (pyStrip (pyPartitionNl b).1)
             then (pyPartitionNl b).2 else b))
    ∧ (∀ lang b : PyStr, b.contains '\n' = false →
        processBlock lang b = (lang, pyStrip b) ∧ genBlock b = b)
    ∧ (∀ hint : PyStr, pyIsAlphaStr hint = true → langHintOk hint = true)
    ∧ (∀ hint : PyStr, pyIsAlphaStr hint = true → startsWithCommentMark hint = false) := by
  refine ⟨?_, ?_, ?_, ?_, ?_⟩
  · intro lang b hb
    unfold processBlock
    rw [if_pos hb]
  · intro b hb
    unfold genBlock
    rw [if_pos hb]
  · intro lang b hb
    have hb2 : ¬(b.contains '\n' = true) := by
      rw [hb]
      exact Bool.false_ne_true
    constructor
    · unfold processBlock
      rw [if_neg hb2]
    · unfold genBlock
      rw [if_neg hb2]
  · intro hint h
    rw [pyIsAlphaStr, Bool.and_eq_true] at h
    unfold langHintOk
    rw [h.1, Bool.true_and, List.all_eq_true]
    intro c hc
    have hcalpha : Char.isAlpha c = false := by
      simp only [hintBlacklist, List.mem_cons, List.not_mem_nil, or_false] at hc
      rcases hc with rfl | rfl | rfl | rfl | rfl | rfl
      all_goals decide
    have hnc := all_alpha_not_contains hint c h.2 hcalpha
    show (!hint.contains c) = true
    rw [hnc]
    rfl
  · intro hint h
    cases hint with
    | nil => simp [pyIsAlphaStr] at h
    | cons a t =>
      rw [pyIsAlphaStr, Bool.and_eq_true, List.all_cons, Bool.and_eq_true] at h
      have h1 := alpha_head_ne a '#' h.2.1 (by decide)
      have h2 := alpha_head_ne a '/' h.2.1 (by decide)
      simp [startsWithCommentMark, List.isPrefixOf, h1, h2]

/-- Claim C3 witness: an alphabetic first line is stripped by both flows. -/
theorem lang_hint_criteria_witness :
    processBlock ("python".toList) ("py\nsome code".toList)
        = ("py".toList, "some code".toList)
    ∧ genBlock ("py\nsome code".toList) = "some code".toList := by
  have h1 := lang_hint_criteria.1 ("python".toList) ("py\nsome code".toList) (by decide)
  have h2 := lang_hint_criteria.2.1 ("py\nsome code".toList) (by decide)
  exact ⟨h1.trans (by decide), h2.trans (by decide)⟩

/-- Claim C4 counterexample: after a failed gateway call the logged model
message reads `Sorry, I encountered an issue.` — with a trailing period — so
no entry of the log carries exactly the claimed text
`Sorry, I encountered an issue`. -/
theorem gateway_fallback_text_counterexample :
    (chatTurn initState "hi" none "120000" "1").chat_history
        = [userMessage "hi", fallbackMessage]
    ∧ ((chatTurn initState "hi" none "120000" "1").chat_history.all
          (fun m => !(m.parts == ["Sorry, I encountered an issue"]))) = true :=
  ⟨rfl, by decide⟩

/-- Claim C4 (amended): when the gateway call of a chat turn fails, the
conversation log gains the user message and then exactly one new entry with
role `model`, whose text is the fixed fallback
`Sorry, I encountered an issue.` (trailing period included), and the snippet
store and the selection mapping are unchanged. -/
theorem gateway_failure_logs_fallback (st : AppState) (u tstr tid : String) :
    (chatTurn st u none tstr tid).chat_history
        = st.chat_history ++ [userMessage u, fallbackMessage]
    ∧ ((chatTurn st u none tstr tid).chat_history.drop st.chat_history.length).filter
          (fun m => m.role == "model") = [fallbackMessage]
    ∧ fallbackMessage.role = "model"
    ∧ fallbackMessage.parts = ["Sorry, I encountered an issue."]
    ∧ (chatTurn st u none tstr tid).generated_codes = st.generated_codes
    ∧ (chatTurn st u none tstr tid).selected_code_ids_for_download
        = st.selected_code_ids_for_download := by
  refine ⟨?_, ?_, rfl, rfl, rfl, rfl⟩
  · show (st.chat_history ++ [userMessage u]) ++ [fallbackMessage]
        = st.chat_history ++ [userMessage u, fallbackMessage]
    rw [List.append_assoc]
    rfl
  · show (((st.chat_history ++ [userMessage u]) ++ [fallbackMessage]).drop
          st.chat_history.length).filter (fun m => m.role == "model")
        = [fallbackMessage]
    rw [List.append_assoc, List.drop_left]
    rfl

/-- Claim C5: the generate-flow extraction is total — the guarded `split[1]`
access is always in range, so the function never fails — and on text with no
fence marker at all it returns the entire text, trimmed, as the content. -/
theorem extraction_total_and_no_fence :
    (∀ text : PyStr, (code_to_store text).isSome = true)
    ∧ (∀ text : PyStr, containsFence text = false →
        code_to_store text = some (pyStrip text)) := by
  refine ⟨code_to_store_isSome, ?_⟩
  intro text h
  unfold code_to_store
  rw [if_neg (by rw [h]; exact Bool.false_ne_true)]

/-- Claim C5 witness: a fence-free text is returned whole and trimmed. -/
theorem extraction_total_and_no_fence_witness :
    (code_to_store ("print(1)".toList)).isSome = true
    ∧ code_to_store ("  hello world ".toList) = some ("hello world".toList) := by
  refine ⟨extraction_total_and_no_fence.1 ("print(1)".toList), ?_⟩
  have h := extraction_total_and_no_fence.2 ("  hello world ".toList) (by decide)
  exact h.trans (by decide)

/-- Claim C6 counterexample: two creations at the same clock reading receive
the same id twice — appending does not always yield a fresh id. -/
theorem appended_ids_collision :
    ((runTrace initState [Op.create "a.py" "python" "x" "1",
                          Op.create "b.py" "python" "y" "1"]).generated_codes.map
        (fun s => s.id)) = ["code_1", "code_1"]
    ∧ ¬ ((runTrace initState [Op.create "a.py" "python" "x" "1",
                              Op.create "b.py" "python" "y" "1"]).generated_codes.map
        (fun s => s.id)).Nodup :=
  ⟨rfl, by decide⟩

/-- Claim C6 (amended): each appended snippet's id is distinct from all
prior ids provided the clock readings at the creations are pairwise
distinct; the id is derived from the wall-clock timestamp and uniqueness is
not otherwise enforced by the code. -/
theorem appended_ids_distinct (ops : List Op) (h : (createStamps ops).Nodup) :
    ((runTrace initState ops).generated_codes.map (fun s => s.id)).Nodup := by
  rw [runTrace_ids ops initState]
  simpa using List.Nodup.map mkId_injective h

/-- Claim C6 witness: distinct clock readings give distinct ids. -/
theorem appended_ids_distinct_witness :
    (["code_1", "code_2"] : List String).Nodup := by
  have h := appended_ids_distinct [Op.create "a.py" "python" "x" "1",
      Op.create "b.py" "python" "y" "2"] (by decide)
  exact (by decide :
      ((runTrace initState [Op.create "a.py" "python" "x" "1",
          Op.create "b.py" "python" "y" "2"]).generated_codes.map (fun s => s.id))
        = ["code_1", "code_2"]) ▸ h

/-- Claim C7: after any sequence of append and toggle operations the
download selection is exactly the set of appended snippets whose current
flag is true, kept in the original append order (a sublist of the store). -/
theorem selected_returns_flagged_in_order (ops : List Op) :
    (selected_to_download (runTrace initState ops)).Sublist
        (runTrace initState ops).generated_codes
    ∧ ∀ s : CodeSnippet,
        s ∈ selected_to_download (runTrace initState ops)
          ↔ s ∈ (runTrace initState ops).generated_codes
            ∧ dictGet (runTrace initState ops).selected_code_ids_for_download
                s.id false = true := by
  refine ⟨List.filter_sublist _, ?_⟩
  intro s
  unfold selected_to_download
  rw [List.mem_filter]

/-- Claim C8: the archive built from K snippets has exactly K entries; the
i-th entry is the i-th snippet's filename (verbatim) paired with its
content, and filename multiplicities are preserved — no deduplication. -/
theorem zip_entries_match (snippets : List CodeSnippet) :
    (create_zip_file snippets).length = snippets.length
    ∧ (∀ i : Nat, (create_zip_file snippets).get? i
          = (snippets.get? i).map (fun s => (s.filename, s.content)))
    ∧ ∀ nm : String, ((create_zip_file snippets).map (fun e => e.1)).count nm
          = (snippets.map (fun s => s.filename)).count nm := by
  refine ⟨List.length_map _ _, fun i => List.get?_map _ _ _, fun nm => ?_⟩
  unfold create_zip_file
  rw [List.map_map]
  rfl

/-- Claim C9: a snippet created by the generate or correct flow is
auto-selected at creation, and the selection mapping's lookup default for an
id with no entry is false. -/
theorem auto_select_and_default :
    (∀ (st : AppState) (fn lg ct t : String),
        dictGet (applyOp st (Op.create fn lg ct t)).selected_code_ids_for_download
            (mkId t) false = true)
    ∧ (∀ (st : AppState) (text tstr tid : String) (lang content : PyStr),
        extracted_code_content text.toList = some (lang, content) →
        dictGet (processAiResponse st (some text) tstr tid).selected_code_ids_for_download
            (mkId tid) false = true)
    ∧ (∀ (d : List (String × Bool)) (k : String),
        d.find? (fun p => p.1 == k) = none → dictGet d k false = false) := by
  refine ⟨?_, ?_, ?_⟩
  · intro st fn lg ct t
    exact dictGet_dictSet_self _ _ _ _
  · intro st text tstr tid lang content h
    unfold processAiResponse
    dsimp only
    rw [h]
    exact dictGet_dictSet_self _ _ _ _
  · intro d k h
    unfold dictGet
    rw [h]

/-- Claim C9 witness: both creation sites auto-select, and a missing id
reads as false. -/
theorem auto_select_and_default_witness :
    dictGet (applyOp initState
          (Op.create "f.py" "python" "pass" "7")).selected_code_ids_for_download
        (mkId "7") false = true
    ∧ dictGet (processAiResponse initState (some "```python\nprint(1)\n```")
          "120000" "9").selected_code_ids_for_download (mkId "9") false = true
    ∧ dictGet [("a", true)] "b" false = false :=
  ⟨auto_select_and_default.1 initState "f.py" "python" "pass" "7",
   auto_select_and_default.2.1 initState "```python\nprint(1)\n```" "120000" "9"
     ("python".toList) ("print(1)".toList) (by decide),
   auto_select_and_default.2.2 [("a", true)] "b" (by decide)⟩

/-- Claim C10: every snippet created by the correct flow is appended last
with filename `corrected_`, the formatted time stamp, a dot, and the Python
list display of `extracted_language.split()` — the unindexed result of
`str.split()` — so language `python` yields a filename ending in
`.['python']` rather than `.python`. -/
theorem corrected_snippet_filename (st : AppState) (u text tstr tid : String)
    (lang content : PyStr)
    (h : extracted_code_content text.toList = some (lang, content)) :
    (chatTurn st u (some text) tstr tid).generated_codes.getLast?
      = some ⟨mkId tid,
              "corrected_" ++ tstr ++ "." ++ pyListRepr (pyWsSplit lang),
              String.mk lang, String.mk content,
              some "Corrected/refined via chat"⟩ := by
  have hlang : lang ≠ [] := by
    unfold extracted_code_content at h
    by_cases hc : containsFence text.toList = true
    · rw [if_pos hc] at h
      exact correctLoop_some_lang_ne_nil _ _ _ _ (by decide) h
    · rw [if_neg hc] at h
      cases h
  have hE : lang.isEmpty = false := by
    cases lang with
    | nil => exact absurd rfl hlang
    | cons a t => rfl
  have hEn : ¬(lang.isEmpty = true) := by
    rw [hE]
    exact Bool.false_ne_true
  unfold chatTurn processAiResponse
  dsimp only
  rw [h]
  dsimp only
  rw [List.getLast?_concat]
  unfold correctedFilename
  rw [if_neg hEn, if_neg hEn]

/-- Claim C10 witness: a corrected `python` snippet gets the list-display
filename. -/
theorem corrected_snippet_filename_witness :
    (chatTurn initState "fix" (some "```python\nprint(1)\n```")
        "120000" "9").generated_codes.getLast?
      = some ⟨"code_9",
              "corrected_120000.[" ++ quoteMark ++ "python" ++ quoteMark ++ "]",
              "python", "print(1)", some "Corrected/refined via chat"⟩ := by
  have h := corrected_snippet_filename initState "fix" "```python\nprint(1)\n```"
    "120000" "9" ("python".toList) ("print(1)".toList) (by decide)
  rw [h]
  decide
